import Mathlib

/-!
# Verification of the `evader` missile-evasion simulator

Shallow embedding of the core of the `evader` repository (files
`evader/math.py`, `evader/controller.py`, `evader/objects.py`,
`evader/model.py`) and proofs of the specification claims about it.

Conventions:
* Python/numpy float arithmetic is idealised as exact arithmetic, over `ℚ`
  where every operation of the source is rational (so that definitions stay
  executable and witnesses can be checked by `decide`), and over `ℝ` for the
  one function that takes a square root (`firing_direction`).
* 2D numpy arrays become pairs; componentwise numpy arithmetic becomes the
  pointwise `Prod` instances.
* The comparison `dist(x, y) <= r` (`np.linalg.norm`) is embedded in the
  rational development as `0 ≤ r ∧ sqDist x y ≤ r ^ 2`, which is equivalent
  to the real statement `Real.sqrt (sqDist x y) ≤ r` (lemma `distLE_iff`).
-/

namespace Evader

/-- 2D vector of rationals (idealised `numpy` float pair). -/
abbrev Vec2 := ℚ × ℚ

/-! ## `evader/math.py`: `abs_dir_clip`

Source (`math.py`, lines 39-57):
```
k = 1
for i in range(len(x)):
    if k * abs(x[i]) > xmax[i]:
        k = xmax[i] / abs(x[i])
return k * x
```
The loop state is the scalar `k`; each visited component is a pair
`(x[i], xmax[i])`.  We model the loop over an arbitrary list of such pairs,
which also covers visiting the components in an arbitrary order. -/

/-- One iteration of the `abs_dir_clip` loop body. -/
def clipStep (k : ℚ) (p : ℚ × ℚ) : ℚ :=
  if k * |p.1| > p.2 then p.2 / |p.1| else k

/-- The final scale factor `k` computed by the `abs_dir_clip` loop. -/
def clipK (pairs : List (ℚ × ℚ)) : ℚ :=
  pairs.foldl clipStep 1

/-- `abs_dir_clip(x, xmax)` for a per-component bound vector `xmax`
(the scalar-bound call of the source first replicates the scalar,
`xmax = [xmax] * len(x)`). -/
def abs_dir_clip (x xmax : List ℚ) : List ℚ :=
  x.map (fun xi => clipK (x.zip xmax) * xi)

/-- The list of ratios `xmax[i] / |x[i]|` over the components with
`x[i] ≠ 0` (the only components whose bound can trigger the loop body when
the bounds are non-negative). -/
def clipRatios (pairs : List (ℚ × ℚ)) : List ℚ :=
  (pairs.filter (fun p => p.1 ≠ 0)).map (fun p => p.2 / |p.1|)

/-- The "direct formula" of the specification: `k = min_i xmax_i/|x_i|`,
capped at `1`. -/
def directK (pairs : List (ℚ × ℚ)) : ℚ :=
  (clipRatios pairs).foldl min 1

/-- For a non-negative bound, the loop body is a `min`-update
(skipping zero components). -/
lemma clipStep_eq (k : ℚ) (p : ℚ × ℚ) (hp : 0 ≤ p.2) :
    clipStep k p = if p.1 = 0 then k else min k (p.2 / |p.1|) := by
  unfold clipStep
  by_cases h1 : p.1 = 0
  · have hno : ¬ (k * |p.1| > p.2) := by
      rw [h1, abs_zero, mul_zero]; exact not_lt.2 hp
    rw [if_neg hno, if_pos h1]
  · have habs : 0 < |p.1| := abs_pos.2 h1
    rw [if_neg h1]
    by_cases h2 : k * |p.1| > p.2
    · have hlt : p.2 / |p.1| < k := (div_lt_iff₀ habs).2 (by linarith [h2])
      rw [if_pos h2, min_eq_right hlt.le]
    · have hle : k ≤ p.2 / |p.1| := (le_div_iff₀ habs).2 (by linarith [not_lt.1 h2])
      rw [if_neg h2, min_eq_left hle]

/-- The `abs_dir_clip` loop computes a running `min` of the ratios. -/
lemma foldl_clipStep_eq_min (pairs : List (ℚ × ℚ)) :
    ∀ k : ℚ, (∀ p ∈ pairs, 0 ≤ p.2) →
      pairs.foldl clipStep k = (clipRatios pairs).foldl min k := by
  induction pairs with
  | nil => intro k _; rfl
  | cons p l ih =>
      intro k h
      have hp : 0 ≤ p.2 := h p (List.mem_cons_self p l)
      have hl : ∀ q ∈ l, 0 ≤ q.2 := fun q hq => h q (List.mem_cons_of_mem p hq)
      by_cases h1 : p.1 = 0
      · have hstep : clipStep k p = k := by rw [clipStep_eq k p hp, if_pos h1]
        have hr : clipRatios (p :: l) = clipRatios l := by
          simp [clipRatios, List.filter_cons, h1]
        rw [List.foldl_cons, hstep, hr, ih k hl]
      · have hstep : clipStep k p = min k (p.2 / |p.1|) := by
          rw [clipStep_eq k p hp, if_neg h1]
        have hr : clipRatios (p :: l) = (p.2 / |p.1|) :: clipRatios l := by
          simp [clipRatios, List.filter_cons, h1]
        rw [List.foldl_cons, hstep, hr, List.foldl_cons, ih _ hl]

/-- With non-negative bounds, the sequential loop factor equals the direct
`min` formula. -/
lemma clipK_eq_directK (pairs : List (ℚ × ℚ)) (h : ∀ p ∈ pairs, 0 ≤ p.2) :
    clipK pairs = directK pairs :=
  foldl_clipStep_eq_min pairs 1 h

/-- Folding `min` is invariant under permutation of the list. -/
lemma foldl_min_perm : ∀ {l₁ l₂ : List ℚ}, l₁.Perm l₂ →
    ∀ a : ℚ, l₁.foldl min a = l₂.foldl min a := by
  intro l₁ l₂ h
  induction h with
  | nil => intro a; rfl
  | cons x _ ih => intro a; simp only [List.foldl_cons]; exact ih _
  | swap x y l =>
      intro a
      simp only [List.foldl_cons]
      rw [min_right_comm]
  | trans _ _ ih₁ ih₂ => intro a; rw [ih₁ a, ih₂ a]

/-- `directK` only depends on the multiset of visited components. -/
lemma directK_perm {pairs₁ pairs₂ : List (ℚ × ℚ)} (h : pairs₁.Perm pairs₂) :
    directK pairs₁ = directK pairs₂ := by
  unfold directK clipRatios
  exact foldl_min_perm ((h.filter _).map _) 1

lemma foldl_min_le_init (l : List ℚ) : ∀ a : ℚ, l.foldl min a ≤ a := by
  induction l with
  | nil => intro a; exact le_refl a
  | cons x l ih =>
      intro a
      exact le_trans (ih (min a x)) (min_le_left a x)

lemma foldl_min_le_mem (l : List ℚ) : ∀ a b : ℚ, b ∈ l → l.foldl min a ≤ b := by
  induction l with
  | nil => intro a b hb; exact absurd hb (List.not_mem_nil b)
  | cons x l ih =>
      intro a b hb
      rcases List.mem_cons.1 hb with rfl | hb
      · exact le_trans (foldl_min_le_init l (min a b)) (min_le_right a b)
      · exact ih (min a x) b hb

lemma le_foldl_min (l : List ℚ) : ∀ a c : ℚ, c ≤ a → (∀ b ∈ l, c ≤ b) →
    c ≤ l.foldl min a := by
  induction l with
  | nil => intro a c hc _; exact hc
  | cons x l ih =>
      intro a c hc h
      exact ih (min a x) c (le_min hc (h x (List.mem_cons_self x l)))
        (fun b hb => h b (List.mem_cons_of_mem x hb))

lemma clipK_le_one (pairs : List (ℚ × ℚ)) (h : ∀ p ∈ pairs, 0 ≤ p.2) :
    clipK pairs ≤ 1 := by
  rw [clipK_eq_directK pairs h]
  exact foldl_min_le_init _ 1

lemma clipK_nonneg (pairs : List (ℚ × ℚ)) (h : ∀ p ∈ pairs, 0 ≤ p.2) :
    0 ≤ clipK pairs := by
  rw [clipK_eq_directK pairs h]
  refine le_foldl_min _ 1 0 zero_le_one ?_
  intro b hb
  obtain ⟨p, hp, rfl⟩ := List.mem_map.1 hb
  exact div_nonneg (h p (List.mem_of_mem_filter hp)) (abs_nonneg p.1)

lemma clipK_le_ratio (pairs : List (ℚ × ℚ)) (h : ∀ p ∈ pairs, 0 ≤ p.2)
    (p : ℚ × ℚ) (hp : p ∈ pairs) (hne : p.1 ≠ 0) :
    clipK pairs ≤ p.2 / |p.1| := by
  rw [clipK_eq_directK pairs h]
  refine foldl_min_le_mem _ 1 _ ?_
  exact List.mem_map.2 ⟨p, List.mem_filter.2 ⟨hp, by simpa using hne⟩, rfl⟩

/-! ## `evader/controller.py`: `tmindist`, `sqmindist` -/

/-- Dot product of 2D vectors (`np.dot`). -/
def dotQ (p q : Vec2) : ℚ :=
  p.1 * q.1 + p.2 * q.2

/-- `tmindist(x1, v1, x2, v2)` (`controller.py`, lines 143-162): time of
minimum distance; `0` when the relative velocity is zero. -/
def tmindist (x1 v1 x2 v2 : Vec2) : ℚ :=
  let dv := v1 - v2
  let dvsq := dotQ dv dv
  if dvsq = 0 then 0
  else
    let dx := x1 - x2; -(dotQ dv dx) / dvsq

/-- `sqmindist(x1, v1, x2, v2)` (`controller.py`, lines 165-182): squared
minimum distance; `|Δx|²` when the relative velocity is zero. -/
def sqmindist (x1 v1 x2 v2 : Vec2) : ℚ :=
  let dv := v1 - v2
  let dvsq := dotQ dv dv
  let dx := x1 - x2
  if dvsq = 0 then dotQ dx dx
  else (dv.1 * dx.2 - dv.2 * dx.1) ^ 2 / dvsq

/-! ## Division sites

For the error-handling claim we record, for each function, the list of
denominators it actually divides by on the execution path taken for the
given input.  A division by zero occurs in the source exactly when `0` is a
member of this list. -/

/-- Denominators used by `tmindist`: the single division `/dvsq` is behind
the `dvsq == 0` early return. -/
def tmindistDenoms (_x1 v1 _x2 v2 : Vec2) : List ℚ :=
  let dv := v1 - v2
  let dvsq := dotQ dv dv
  if dvsq = 0 then [] else [dvsq]

/-- Denominators used by `sqmindist`. -/
def sqmindistDenoms (_x1 v1 _x2 v2 : Vec2) : List ℚ :=
  let dv := v1 - v2
  let dvsq := dotQ dv dv
  if dvsq = 0 then [] else [dvsq]

/-- Denominators used by `firing_direction` (`math.py`, lines 88-123), in
evaluation order: past the `dsq == 0` and `dis < 0` early returns it
computes `solt1 = (c + sqrtdis)/d`, `solv1 = ((a - d1*sqrtdis)/dsq,
(b - d2*sqrtdis)/dsq)`, `solt2`, `solv2`, dividing twice by
`d = vt1² + vt2² - proj_speed²` and four times by `dsq`. -/
def firingDirectionDenoms (gun_x : Vec2) (proj_speed : ℚ) (targ_x targ_v : Vec2) :
    List ℚ :=
  let d1 := targ_x.1 - gun_x.1
  let d2 := targ_x.2 - gun_x.2
  let dsq := d1 ^ 2 + d2 ^ 2
  if dsq = 0 then []
  else
    let vt1 := targ_v.1
    let vt2 := targ_v.2
    let dis := proj_speed ^ 2 * dsq - (d1 * vt2 - d2 * vt1) ^ 2
    if dis < 0 then []
    else
      let d := vt1 ^ 2 + vt2 ^ 2 - proj_speed ^ 2
      [d, dsq, dsq, d, dsq, dsq]

/-! ## `evader/controller.py`: optimal-evasion controller -/

/-- Result type of `evade_missile` (`controller.py`, `EvadeResult`). -/
inductive EvadeResult where
  | SUCCESS
  | FAIL
  | NO_THREAT
deriving DecidableEq

/-- `EvasionSolution` (`controller.py`, lines 200-208). -/
structure EvasionSolution where
  v : Vec2
  nit : ℕ
  success : Bool
deriving DecidableEq

/-- Does a solver result qualify (`res.success and res.nit > 0`)? -/
def qualifies (solver : Vec2 → EvasionSolution) (s : Vec2) : Bool :=
  (solver s).success && decide (0 < (solver s).nit)

/-- The `for start in [...]` loop of
`AircraftControllerOptimalEvasion.evade_missile`: take the first starting
point whose solver result qualifies; on success the aircraft velocity is set
to the result, otherwise it is left at `v0`. -/
def tryStarts (solver : Vec2 → EvasionSolution) (v0 : Vec2) :
    List Vec2 → EvadeResult × Vec2
  | [] => (EvadeResult.FAIL, v0)
  | s :: rest =>
      if qualifies solver s then (EvadeResult.SUCCESS, (solver s).v)
      else tryStarts solver v0 rest

/-- The starting points `[v0, v0 - dvmax*coeff, v0 + dvmax*coeff]`
(the scalar `dvmax*coeff` broadcasts over both components). -/
def evadeStarts (coeff dvmax : ℚ) (v0 : Vec2) : List Vec2 :=
  [v0, (v0.1 - dvmax * coeff, v0.2 - dvmax * coeff),
    (v0.1 + dvmax * coeff, v0.2 + dvmax * coeff)]

/-- `AircraftControllerOptimalEvasion.evade_missile` (`controller.py`, lines
266-336), with the evasion solver abstracted as a function from the starting
velocity to its `EvasionSolution` (the aircraft, missile, `t` and `dt`
arguments of the solver are fixed during the call).  Returns the
`EvadeResult` together with the aircraft velocity after the call. -/
def evade_missile (solver : Vec2 → EvasionSolution) (coeff dvmax : ℚ)
    (ax av mx mv : Vec2) : EvadeResult × Vec2 :=
  let tmin := tmindist ax av mx mv
  if tmin < 0 then (EvadeResult.NO_THREAT, av)
  else tryStarts solver av (evadeStarts coeff dvmax av)

/-- `tryStarts` returns the first qualifying start, in list order. -/
lemma tryStarts_eq_find? (solver : Vec2 → EvasionSolution) (v0 : Vec2) :
    ∀ l : List Vec2,
      tryStarts solver v0 l =
        match l.find? (qualifies solver) with
        | some s => (EvadeResult.SUCCESS, (solver s).v)
        | none => (EvadeResult.FAIL, v0) := by
  intro l
  induction l with
  | nil => rfl
  | cons s rest ih =>
      by_cases h : qualifies solver s
      · rw [tryStarts, if_pos h, List.find?_cons_of_pos _ h]
      · rw [tryStarts, if_neg h, List.find?_cons_of_neg _ h, ih]

/-! ## `evader/objects.py`: aircraft and missile state machines -/

/-- Squared Euclidean distance between two points. -/
def sqDist (p q : Vec2) : ℚ :=
  (p.1 - q.1) ^ 2 + (p.2 - q.2) ^ 2

/-- The source comparison `dist(x, y) <= r` (`np.linalg.norm(x - y) <= r`),
expressed without the square root so that it stays decidable over `ℚ`. -/
def distLE (p q : Vec2) (r : ℚ) : Prop :=
  0 ≤ r ∧ sqDist p q ≤ r ^ 2

instance (p q : Vec2) (r : ℚ) : Decidable (distLE p q r) := by
  unfold distLE; infer_instance

/-- `distLE` is exactly the real-number statement `‖x - y‖ ≤ r`. -/
lemma distLE_iff (p q : Vec2) (r : ℚ) :
    distLE p q r ↔ Real.sqrt ((sqDist p q : ℚ) : ℝ) ≤ (r : ℝ) := by
  rw [Real.sqrt_le_iff, distLE]
  constructor
  · rintro ⟨h1, h2⟩
    refine ⟨by exact_mod_cast h1, ?_⟩
    rw [show ((r : ℝ)) ^ 2 = ((r ^ 2 : ℚ) : ℝ) by push_cast; ring]
    exact_mod_cast h2
  · rintro ⟨h1, h2⟩
    refine ⟨by exact_mod_cast h1, ?_⟩
    rw [show ((r : ℝ)) ^ 2 = ((r ^ 2 : ℚ) : ℝ) by push_cast; ring] at h2
    exact_mod_cast h2

/-- `abs_dir_clip(v, vmax)` as called by `Aircraft.next` on a 2-component
velocity with a scalar bound. -/
def abs_dir_clip2 (v : Vec2) (vmax : ℚ) : Vec2 :=
  clipK [(v.1, vmax), (v.2, vmax)] • v

/-- `abs_dir_clip2` agrees with the list-level `abs_dir_clip`. -/
lemma abs_dir_clip2_eq (v : Vec2) (vmax : ℚ) :
    abs_dir_clip [v.1, v.2] [vmax, vmax] =
      [(abs_dir_clip2 v vmax).1, (abs_dir_clip2 v vmax).2] := rfl

/-- `out of bounds` test of `UnguidedMissile.next`:
`(x < xlb).any() or (x > xub).any()`. -/
def outOfBounds (xlb xub p : Vec2) : Prop :=
  p.1 < xlb.1 ∨ p.2 < xlb.2 ∨ xub.1 < p.1 ∨ xub.2 < p.2

instance (xlb xub p : Vec2) : Decidable (outOfBounds xlb xub p) := by
  unfold outOfBounds; infer_instance

/-- Mutable state of an `Aircraft` (`objects.py`, lines 18-104). -/
structure AircraftS where
  x : Vec2
  v : Vec2
  destroyed : Bool
deriving DecidableEq

/-- `Aircraft.destroy` (`objects.py`, lines 96-104): sets the velocity to
zero and `destroyed` to `True`. -/
def AircraftS.destroy (a : AircraftS) : AircraftS :=
  { a with v := 0, destroyed := true }

/-- `Aircraft.next` (`objects.py`, lines 71-80).  The installed controller
(`AircraftControllerEvadingTargeted.next` and its subclasses) only mutates
the velocity, and only when the aircraft is not destroyed (`controller.py`,
line 115); it is abstracted as the function `ctrl` from the aircraft state
to the controlled velocity.  Then `v = abs_dir_clip(v, vmax)` and
`x += v * dt`. -/
def AircraftS.next (ctrl : AircraftS → Vec2) (vmax dt : ℚ) (a : AircraftS) :
    AircraftS :=
  let v1 := if a.destroyed then a.v else ctrl a
  let v2 := abs_dir_clip2 v1 vmax
  { a with v := v2, x := a.x + dt • v2 }

/-- Mutable state of an `UnguidedMissile` (`objects.py`, lines 107-228). -/
structure MissileS where
  x : Vec2
  v : Vec2
  explRange : ℚ
  destroyed : Bool
  exploded : Bool
deriving DecidableEq

/-- `UnguidedMissile.destroy` (`objects.py`, lines 215-223). -/
def MissileS.destroy (m : MissileS) : MissileS :=
  { m with v := 0, destroyed := true }

/-- `UnguidedMissile.explode` (`objects.py`, lines 206-213): sets
`exploded` to `True` and destroys the missile. -/
def MissileS.explode (m : MissileS) : MissileS :=
  MissileS.destroy { m with exploded := true }

/-- `UnguidedMissile.self_destruct` (`objects.py`, lines 225-228). -/
def MissileS.self_destruct (m : MissileS) : MissileS :=
  MissileS.destroy m

/-- `UnguidedMissile.next` (`objects.py`, lines 161-186), acting on the
missile together with its target aircraft: if not destroyed and within
explosion range of the target, explode and destroy the target; then
`x += v * dt` unconditionally; then, if still not destroyed and the new
position is out of the world bounds, self-destruct. -/
def MissileS.next (xlb xub : Vec2) (dt : ℚ) (m : MissileS) (tgt : AircraftS) :
    MissileS × AircraftS :=
  let hit := ¬m.destroyed ∧ distLE m.x tgt.x m.explRange
  let m1 := if hit then m.explode else m
  let t1 := if hit then tgt.destroy else tgt
  let m2 := { m1 with x := m1.x + dt • m1.v }
  let m3 := if ¬m2.destroyed ∧ outOfBounds xlb xub m2.x then m2.self_destruct
    else m2
  (m3, t1)

/-- Invariant of the spec data model: `destroyed ⇒ v = 0`. -/
def AircraftS.inv (a : AircraftS) : Prop :=
  a.destroyed = true → a.v = 0

/-- Invariants of the spec data model: `destroyed ⇒ v = 0` and
`exploded ⇒ destroyed`. -/
def MissileS.inv (m : MissileS) : Prop :=
  (m.destroyed = true → m.v = 0) ∧ (m.exploded = true → m.destroyed = true)

lemma abs_dir_clip2_zero (vmax : ℚ) : abs_dir_clip2 0 vmax = 0 :=
  smul_zero _

/-! ## `evader/objects.py`: `MissileSystem` launcher state machine

For the single-live-missile invariant we track, per launcher, the
`destroyed` flags of the missiles it has fired (in firing order, mirroring
`fired_missile_count`) together with the `self.missile` reference (as the
index of the referenced missile).  The rest of the world interacts with
these missiles only by destroying them (`UnguidedMissile.next` explosion or
leaving the world; nothing ever resets a `destroyed` flag), which is the
`envDestroy` step.  The data-dependent conditions inside
`MissileSystem.next` — the tether test `dist(x, missile.x) > firing_range`,
the cooldown test, target search and the success of `fire` — are abstracted
as the nondeterministic booleans `tetherCut` and `canFire`. -/

structure MSState where
  flags : List Bool
  current : Option ℕ
deriving DecidableEq

/-- A fresh `MissileSystem`: no missile fired, `self.missile = None`. -/
def msInit : MSState := ⟨[], none⟩

/-- Some other part of the model destroys fired missile `i`. -/
def envDestroy (i : ℕ) (s : MSState) : MSState :=
  { s with flags := s.flags.set i true }

/-- First half of `MissileSystem.next` (`objects.py`, lines 300-307):
if a missile is held, optionally self-destruct it (tether cut), and clear
the reference if the missile is destroyed. -/
def msClear (tetherCut : Bool) (s : MSState) : MSState :=
  match s with
  | ⟨flags, none⟩ => ⟨flags, none⟩
  | ⟨flags, some i⟩ =>
      let flags2 := if tetherCut then flags.set i true else flags
      if flags2.getD i true then ⟨flags2, none⟩ else ⟨flags2, some i⟩

/-- Second half of `MissileSystem.next` (`objects.py`, lines 308-320) and
`MissileSystem.fire` (lines 324-373): if no missile is held and the
cooldown/target/solution conditions all hold (`canFire`), register a fresh
non-destroyed missile and hold it. -/
def msFire (canFire : Bool) (s : MSState) : MSState :=
  if s.current = none ∧ canFire then ⟨s.flags ++ [false], some s.flags.length⟩
  else s

/-- `MissileSystem.next`: clearing phase followed by the firing phase. -/
def msNext (tetherCut canFire : Bool) (s : MSState) : MSState :=
  msFire canFire (msClear tetherCut s)

/-- One step of the world as seen by a launcher. -/
inductive MSStep : MSState → MSState → Prop
  | next : ∀ (tetherCut canFire : Bool) (s : MSState),
      MSStep s (msNext tetherCut canFire s)
  | destroy : ∀ (i : ℕ) (s : MSState), MSStep s (envDestroy i s)

/-- States reachable from a fresh launcher by any sequence of ticks. -/
def MSReachable (s : MSState) : Prop :=
  Relation.ReflTransGen MSStep msInit s

/-- Launcher invariant: every fired missile that is still live is the one
referenced by `self.missile`. -/
def msInv (s : MSState) : Prop :=
  ∀ i : ℕ, ∀ h : i < s.flags.length, s.flags[i] = false → s.current = some i

lemma msInv_init : msInv msInit := by
  intro i h
  exact absurd h (Nat.not_lt_zero i)

lemma msInv_envDestroy (i : ℕ) (s : MSState) (hs : msInv s) :
    msInv (envDestroy i s) := by
  intro j hj hfalse
  have hj' : j < s.flags.length := by
    simpa [envDestroy] using hj
  by_cases hij : i = j
  · subst hij
    rw [show (envDestroy i s).flags[i] = true by
      simp [envDestroy, List.getElem_set, hj']] at hfalse
    exact absurd hfalse (by simp)
  · have : (envDestroy i s).flags[j] = s.flags[j] := by
      simp [envDestroy, List.getElem_set, hij]
    rw [this] at hfalse
    exact hs j hj' hfalse

/-- `getD` with default `true` reads `false` exactly at a live in-range
index. -/
lemma getD_true_eq_false_iff (l : List Bool) (i : ℕ) :
    l.getD i true = false ↔ ∃ h : i < l.length, l[i] = false := by
  rw [List.getD_eq_getElem?_getD]
  by_cases h : i < l.length
  · rw [List.getElem?_eq_getElem h]
    simp [h]
  · rw [List.getElem?_eq_none (le_of_not_lt h)]
    simp [h]

lemma msClear_flags_length (tc : Bool) (s : MSState) :
    (msClear tc s).flags.length = s.flags.length := by
  obtain ⟨fl, cur⟩ := s
  cases cur with
  | none => rfl
  | some i =>
      simp only [msClear]
      by_cases htc : tc = true <;>
        by_cases hd : (if tc then fl.set i true else fl).getD i true = true <;>
          simp [htc, hd] at hd ⊢ <;> simp [hd]

lemma msInv_msClear (tc : Bool) (s : MSState) (hs : msInv s) :
    msInv (msClear tc s) := by
  obtain ⟨fl, cur⟩ := s
  cases cur with
  | none => exact hs
  | some i =>
      have hmem : ∀ j : ℕ,
          ∀ hj : j < (if tc then fl.set i true else fl).length,
          (if tc then fl.set i true else fl)[j] = false →
            ∃ hj' : j < fl.length, fl[j] = false ∧ (tc = true → j ≠ i) := by
        intro j hj hfalse
        by_cases htc : tc = true
        · simp only [htc, if_true] at hj hfalse
          have hj' : j < fl.length := by simpa using hj
          by_cases hij : i = j
          · subst hij
            simp [List.getElem_set] at hfalse
          · rw [List.getElem_set, if_neg hij] at hfalse
            exact ⟨hj', hfalse, fun _ h => hij h.symm⟩
        · simp only [if_neg htc] at hj hfalse
          exact ⟨hj, hfalse, fun h => absurd h htc⟩
      simp only [msClear]
      by_cases hd : (if tc then fl.set i true else fl).getD i true = true
      · rw [if_pos hd]
        intro j hj hfalse
        obtain ⟨hj', hf, hne⟩ := hmem j hj hfalse
        have := hs j hj' hf
        injection this with h
        by_cases htc : tc = true
        · exact absurd h.symm (hne htc)
        · rw [if_neg htc] at hd
          rw [h] at hd
          rw [(getD_true_eq_false_iff fl j).2 ⟨hj', hf⟩] at hd
          simp at hd
      · rw [if_neg hd]
        intro j hj hfalse
        obtain ⟨hj', hf, _⟩ := hmem j hj hfalse
        exact hs j hj' hf

/-- After the clearing phase, a cleared reference means every fired missile
is destroyed. -/
lemma msClear_none_all_destroyed (tc : Bool) (s : MSState) (hs : msInv s)
    (hnone : (msClear tc s).current = none) :
    ∀ j : ℕ, ∀ hj : j < (msClear tc s).flags.length,
      (msClear tc s).flags[j] = true := by
  intro j hj
  by_contra hne
  have hfalse : (msClear tc s).flags[j] = false := by
    cases h : (msClear tc s).flags[j]
    · rfl
    · exact absurd h hne
  have := msInv_msClear tc s hs j hj hfalse
  rw [hnone] at this
  exact Option.noConfusion this

lemma msInv_msFire (cf : Bool) (s : MSState) (hs : msInv s)
    (hall : s.current = none → ∀ j : ℕ, ∀ hj : j < s.flags.length,
      s.flags[j] = true) :
    msInv (msFire cf s) := by
  unfold msFire
  by_cases hc : s.current = none ∧ cf
  · rw [if_pos hc]
    intro j hj hfalse
    have hj' : j < s.flags.length + 1 := by simpa using hj
    by_cases hlt : j < s.flags.length
    · rw [List.getElem_append_left hlt] at hfalse
      rw [hall hc.1 j hlt] at hfalse
      exact absurd hfalse (by simp)
    · have hj'' : j = s.flags.length := by omega
      simp [hj'']
  · rw [if_neg hc]
    exact hs

lemma msInv_msNext (tc cf : Bool) (s : MSState) (hs : msInv s) :
    msInv (msNext tc cf s) :=
  msInv_msFire cf (msClear tc s) (msInv_msClear tc s hs)
    (msClear_none_all_destroyed tc s hs)

lemma msInv_step {s s' : MSState} (h : MSStep s s') (hs : msInv s) :
    msInv s' := by
  cases h with
  | next tc cf s => exact msInv_msNext tc cf s hs
  | destroy i s => exact msInv_envDestroy i s hs

lemma msInv_reachable {s : MSState} (h : MSReachable s) : msInv s := by
  induction h with
  | refl => exact msInv_init
  | tail _ hstep ih => exact msInv_step hstep ih

/-! ## `evader/model.py`: the world loop

`Model.run` iterates `for obj in self.objects` while entity code
(`MissileSystem.fire` via `Model.add_object`) may append to `self.objects`
during the iteration.  CPython list iteration is by index over the live
list, which `modelTickAux` reproduces: `spawn e` is the list of entities
that processing entity `e` (its `erase`/`draw`/`next` calls) appends to the
registry.  `visited` records the entities processed this tick, in
processing order.  The `fuel` argument only bounds the number of loop
iterations we are willing to unfold; `none` means the bound was hit. -/

def modelTickAux {E : Type} (spawn : E → List E) :
    ℕ → List E → List E → ℕ → Option (List E × List E)
  | 0, objs, visited, i =>
      if i < objs.length then none else some (visited, objs)
  | fuel + 1, objs, visited, i =>
      if h : i < objs.length then
        modelTickAux spawn fuel (objs ++ spawn objs[i]) (visited ++ [objs[i]])
          (i + 1)
      else some (visited, objs)

/-- One tick of the `for obj in self.objects` loop of `Model.run`
(`model.py`, lines 99-102), returning the processing order and the final
registry. -/
def modelTick {E : Type} (spawn : E → List E) (fuel : ℕ) (objs : List E) :
    Option (List E × List E) :=
  modelTickAux spawn fuel objs [] 0

lemma modelTickAux_spec {E : Type} (spawn : E → List E) :
    ∀ (fuel : ℕ) (objs : List E) (i : ℕ), i ≤ objs.length →
      ∀ vis fin : List E,
        modelTickAux spawn fuel objs (objs.take i) i = some (vis, fin) →
        vis = fin ∧ ∃ tail, objs ++ tail = fin := by
  intro fuel
  induction fuel with
  | zero =>
      intro objs i hi vis fin h
      rw [modelTickAux] at h
      by_cases hlt : i < objs.length
      · rw [if_pos hlt] at h
        exact Option.noConfusion h
      · rw [if_neg hlt] at h
        have hi' : i = objs.length := le_antisymm hi (le_of_not_lt hlt)
        injection h with h'
        injection h' with h1 h2
        subst h2
        refine ⟨?_, [], List.append_nil _⟩
        rw [← h1, hi', List.take_length]
  | succ fuel ih =>
      intro objs i hi vis fin h
      rw [modelTickAux] at h
      by_cases hlt : i < objs.length
      · rw [dif_pos hlt] at h
        have htake : (objs ++ spawn objs[i]).take (i + 1) =
            objs.take i ++ [objs[i]] := by
          rw [List.take_append_of_le_length (by omega), List.take_succ,
            List.getElem?_eq_getElem hlt]
          rfl
        rw [← htake] at h
        have hle : i + 1 ≤ (objs ++ spawn objs[i]).length := by
          rw [List.length_append]; omega
        obtain ⟨hvf, tail, htail⟩ := ih _ (i + 1) hle vis fin h
        exact ⟨hvf, spawn objs[i] ++ tail, by rw [← List.append_assoc, htail]⟩
      · rw [dif_neg hlt] at h
        have hi' : i = objs.length := le_antisymm hi (le_of_not_lt hlt)
        injection h with h'
        injection h' with h1 h2
        subst h2
        refine ⟨?_, [], List.append_nil _⟩
        rw [← h1, hi', List.take_length]

/-- `Model.run` main loop (`model.py`, lines 92-105) in the scenario of the
claim: the pause flag is never set and exit is never signalled, so every
quantum runs `t += dt` followed by the per-entity pass.  Only the time
variable matters for the termination claim; `fuel` bounds the number of
unfoldings (`none` = bound hit before the loop exited). -/
def modelRunAux (tmax dt : ℚ) : ℕ → ℚ → Option ℚ
  | 0, t => if t ≤ tmax then none else some t
  | fuel + 1, t => if t ≤ tmax then modelRunAux tmax dt fuel (t + dt) else some t

/-- `Model.run` starting from `t = 0`. -/
def modelRun (tmax dt : ℚ) (fuel : ℕ) : Option ℚ :=
  modelRunAux tmax dt fuel 0

lemma modelRunAux_spec (tmax dt : ℚ) :
    ∀ (fuel : ℕ) (t : ℚ), t ≤ tmax + dt → tmax < t + fuel * dt →
      ∃ r : ℚ, modelRunAux tmax dt fuel t = some r ∧ tmax < r ∧ r ≤ tmax + dt := by
  intro fuel
  induction fuel with
  | zero =>
      intro t hle hfuel
      rw [Nat.cast_zero, zero_mul, add_zero] at hfuel
      exact ⟨t, by rw [modelRunAux, if_neg (not_le.2 hfuel)], hfuel, hle⟩
  | succ fuel ih =>
      intro t hle hfuel
      by_cases ht : t ≤ tmax
      · have hdt : tmax < (t + dt) + fuel * dt := by
          push_cast at hfuel ⊢
          linarith
        have hle' : t + dt ≤ tmax + dt := by linarith
        obtain ⟨r, hr, h1, h2⟩ := ih (t + dt) hle' hdt
        exact ⟨r, by rw [modelRunAux, if_pos ht]; exact hr, h1, h2⟩
      · exact ⟨t, by rw [modelRunAux, if_neg ht], not_le.1 ht, hle⟩

/-! ## `evader/math.py`: `firing_direction` (lines 65-123)

The only genuinely real-valued step of the source is `np.sqrt(dis)`, so this
function is embedded over `ℝ`.  The intermediate quantities keep the names
of the source (`dsq`, `dis`, `a`, `b`, `c`, `d`, `solt1`, ...).  The final
`min(..., key=itemgetter(0), default=None)` over the generator filtered by
`t > 0` returns the first solution of minimal time, i.e. `(solt1, solv1)`
when both times are positive and equal. -/

noncomputable section

def fdDsq (gun_x targ_x : ℝ × ℝ) : ℝ :=
  (targ_x.1 - gun_x.1) ^ 2 + (targ_x.2 - gun_x.2) ^ 2

def fdDis (gun_x : ℝ × ℝ) (proj_speed : ℝ) (targ_x targ_v : ℝ × ℝ) : ℝ :=
  proj_speed ^ 2 * fdDsq gun_x targ_x -
    ((targ_x.1 - gun_x.1) * targ_v.2 - (targ_x.2 - gun_x.2) * targ_v.1) ^ 2

def fdSqrtDis (gun_x : ℝ × ℝ) (proj_speed : ℝ) (targ_x targ_v : ℝ × ℝ) : ℝ :=
  Real.sqrt (fdDis gun_x proj_speed targ_x targ_v)

def fdA (gun_x targ_x targ_v : ℝ × ℝ) : ℝ :=
  (targ_x.2 - gun_x.2) ^ 2 * targ_v.1 -
    (targ_x.1 - gun_x.1) * (targ_x.2 - gun_x.2) * targ_v.2

def fdB (gun_x targ_x targ_v : ℝ × ℝ) : ℝ :=
  (targ_x.1 - gun_x.1) *
    ((targ_x.1 - gun_x.1) * targ_v.2 - (targ_x.2 - gun_x.2) * targ_v.1)

def fdC (gun_x targ_x targ_v : ℝ × ℝ) : ℝ :=
  -(targ_x.1 - gun_x.1) * targ_v.1 - (targ_x.2 - gun_x.2) * targ_v.2

def fdDen (proj_speed : ℝ) (targ_v : ℝ × ℝ) : ℝ :=
  targ_v.1 ^ 2 + targ_v.2 ^ 2 - proj_speed ^ 2

/-- `solt1 = (c + sqrtdis) / d`. -/
def fdT1 (gun_x : ℝ × ℝ) (proj_speed : ℝ) (targ_x targ_v : ℝ × ℝ) : ℝ :=
  (fdC gun_x targ_x targ_v + fdSqrtDis gun_x proj_speed targ_x targ_v) /
    fdDen proj_speed targ_v

/-- `solv1 = ((a - d1*sqrtdis)/dsq, (b - d2*sqrtdis)/dsq)`. -/
def fdV1 (gun_x : ℝ × ℝ) (proj_speed : ℝ) (targ_x targ_v : ℝ × ℝ) : ℝ × ℝ :=
  ((fdA gun_x targ_x targ_v -
      (targ_x.1 - gun_x.1) * fdSqrtDis gun_x proj_speed targ_x targ_v) /
    fdDsq gun_x targ_x,
   (fdB gun_x targ_x targ_v -
      (targ_x.2 - gun_x.2) * fdSqrtDis gun_x proj_speed targ_x targ_v) /
    fdDsq gun_x targ_x)

/-- `solt2 = (c - sqrtdis) / d`. -/
def fdT2 (gun_x : ℝ × ℝ) (proj_speed : ℝ) (targ_x targ_v : ℝ × ℝ) : ℝ :=
  (fdC gun_x targ_x targ_v - fdSqrtDis gun_x proj_speed targ_x targ_v) /
    fdDen proj_speed targ_v

/-- `solv2 = ((a + d1*sqrtdis)/dsq, (b + d2*sqrtdis)/dsq)`. -/
def fdV2 (gun_x : ℝ × ℝ) (proj_speed : ℝ) (targ_x targ_v : ℝ × ℝ) : ℝ × ℝ :=
  ((fdA gun_x targ_x targ_v +
      (targ_x.1 - gun_x.1) * fdSqrtDis gun_x proj_speed targ_x targ_v) /
    fdDsq gun_x targ_x,
   (fdB gun_x targ_x targ_v +
      (targ_x.2 - gun_x.2) * fdSqrtDis gun_x proj_speed targ_x targ_v) /
    fdDsq gun_x targ_x)

open scoped Classical in
/-- `firing_direction(gun_x, gun_v=None, proj_speed, targ_x, targ_v)`
(`math.py`, lines 65-123; the `gun_v` argument must be `None` and is
dropped).  Returns the `(t, v)` solution pair of smallest positive `t`, or
`none`. -/
def firing_direction (gun_x : ℝ × ℝ) (proj_speed : ℝ) (targ_x targ_v : ℝ × ℝ) :
    Option (ℝ × (ℝ × ℝ)) :=
  if fdDsq gun_x targ_x = 0 then none
  else if fdDis gun_x proj_speed targ_x targ_v < 0 then none
  else
    if 0 < fdT1 gun_x proj_speed targ_x targ_v then
      if 0 < fdT2 gun_x proj_speed targ_x targ_v then
        if fdT1 gun_x proj_speed targ_x targ_v ≤
            fdT2 gun_x proj_speed targ_x targ_v then
          some (fdT1 gun_x proj_speed targ_x targ_v,
            fdV1 gun_x proj_speed targ_x targ_v)
        else
          some (fdT2 gun_x proj_speed targ_x targ_v,
            fdV2 gun_x proj_speed targ_x targ_v)
      else
        some (fdT1 gun_x proj_speed targ_x targ_v,
          fdV1 gun_x proj_speed targ_x targ_v)
    else if 0 < fdT2 gun_x proj_speed targ_x targ_v then
      some (fdT2 gun_x proj_speed targ_x targ_v,
        fdV2 gun_x proj_speed targ_x targ_v)
    else none

end

/-- Squared speed of the solution velocity `((a + d1*s)/dsq, (b + d2*s)/dsq)`
is the projectile speed squared (instantiating `s := -sqrtdis` covers
`solv1`). -/
lemma fd_speed_generic (d1 d2 vt1 vt2 ps s : ℝ) (hdsq : d1 ^ 2 + d2 ^ 2 ≠ 0)
    (hs : s ^ 2 = ps ^ 2 * (d1 ^ 2 + d2 ^ 2) - (d1 * vt2 - d2 * vt1) ^ 2) :
    ((d2 ^ 2 * vt1 - d1 * d2 * vt2 + d1 * s) / (d1 ^ 2 + d2 ^ 2)) ^ 2 +
      ((d1 * (d1 * vt2 - d2 * vt1) + d2 * s) / (d1 ^ 2 + d2 ^ 2)) ^ 2 =
        ps ^ 2 := by
  field_simp
  linear_combination (d1 ^ 2 + d2 ^ 2) * hs

/-- Meet equation for the first component: the solution
`t = (c - s)/den`, `v₁ = (a + d1*s)/dsq` satisfies `v₁·t = d1 + vt1·t`
(instantiating `s := -sqrtdis` covers `solt1, solv1`). -/
lemma fd_meet_x_generic (d1 d2 vt1 vt2 ps s : ℝ)
    (hdsq : d1 ^ 2 + d2 ^ 2 ≠ 0) (hden : vt1 ^ 2 + vt2 ^ 2 - ps ^ 2 ≠ 0)
    (hs : s ^ 2 = ps ^ 2 * (d1 ^ 2 + d2 ^ 2) - (d1 * vt2 - d2 * vt1) ^ 2) :
    ((d2 ^ 2 * vt1 - d1 * d2 * vt2 + d1 * s) / (d1 ^ 2 + d2 ^ 2)) *
        ((-d1 * vt1 - d2 * vt2 - s) / (vt1 ^ 2 + vt2 ^ 2 - ps ^ 2)) =
      d1 + vt1 * ((-d1 * vt1 - d2 * vt2 - s) / (vt1 ^ 2 + vt2 ^ 2 - ps ^ 2)) := by
  field_simp
  linear_combination (-d1) * (vt1 ^ 2 + vt2 ^ 2 - ps ^ 2) * hs

/-- Meet equation for the second component. -/
lemma fd_meet_y_generic (d1 d2 vt1 vt2 ps s : ℝ)
    (hdsq : d1 ^ 2 + d2 ^ 2 ≠ 0) (hden : vt1 ^ 2 + vt2 ^ 2 - ps ^ 2 ≠ 0)
    (hs : s ^ 2 = ps ^ 2 * (d1 ^ 2 + d2 ^ 2) - (d1 * vt2 - d2 * vt1) ^ 2) :
    ((d1 * (d1 * vt2 - d2 * vt1) + d2 * s) / (d1 ^ 2 + d2 ^ 2)) *
        ((-d1 * vt1 - d2 * vt2 - s) / (vt1 ^ 2 + vt2 ^ 2 - ps ^ 2)) =
      d2 + vt2 * ((-d1 * vt1 - d2 * vt2 - s) / (vt1 ^ 2 + vt2 ^ 2 - ps ^ 2)) := by
  field_simp
  linear_combination (-d2) * (vt1 ^ 2 + vt2 ^ 2 - ps ^ 2) * hs

/-- If the denominator `d` vanishes, both candidate times are `0` in the
idealised (real-number) semantics, so the solver returns `none`. -/
lemma fdT_eq_zero_of_den_eq_zero (gun_x : ℝ × ℝ) (proj_speed : ℝ)
    (targ_x targ_v : ℝ × ℝ) (h : fdDen proj_speed targ_v = 0) :
    fdT1 gun_x proj_speed targ_x targ_v = 0 ∧
      fdT2 gun_x proj_speed targ_x targ_v = 0 := by
  unfold fdT1 fdT2
  rw [h, div_zero, div_zero]
  exact ⟨rfl, rfl⟩

/-! ## Claim theorems -/

/-- Squared Euclidean norm of a component list. -/
def normSq (l : List ℚ) : ℚ :=
  (l.map fun a => a ^ 2).sum

/-- C7 (counterexample to the claim as stated): there is **no** input
`x`/`xmax` with non-negative bounds, in **no** visiting order of the
components, on which the sequential per-component update of `abs_dir_clip`
produces a different result vector than the direct formula
`k = min_i xmax_i/|x_i|` capped at `1`.  A component together with its bound
is a pair `(x_i, xmax_i)`; `visit` is the component sequence the loop scans
(any permutation of the components `pairs` of the vector). -/
theorem spec_C7_counterexample :
    ¬ ∃ (pairs visit : List (ℚ × ℚ)), visit.Perm pairs ∧
      (∀ p ∈ pairs, 0 ≤ p.2) ∧
      (pairs.map fun p => clipK visit * p.1) ≠
        (pairs.map fun p => directK pairs * p.1) := by
  rintro ⟨pairs, visit, hperm, hpos, hne⟩
  have heq : clipK visit = directK pairs := by
    rw [clipK_eq_directK visit (fun p hp => hpos p (hperm.mem_iff.1 hp))]
    exact directK_perm hperm
  exact hne (by rw [heq])

/-- C7 (amended): for every input vector with non-negative bounds and every
visiting order of its components, the sequential per-component update of
`abs_dir_clip` (which re-divides by the current `k`) produces exactly the
same scale factor — and hence the same result vector — as directly
computing `k = min_i xmax_i/|x_i|` capped at `1`. -/
theorem spec_C7 (pairs visit : List (ℚ × ℚ)) (hperm : visit.Perm pairs)
    (hpos : ∀ p ∈ pairs, 0 ≤ p.2) :
    clipK visit = directK pairs ∧
      (pairs.map fun p => clipK visit * p.1) =
        (pairs.map fun p => directK pairs * p.1) := by
  have heq : clipK visit = directK pairs := by
    rw [clipK_eq_directK visit (fun p hp => hpos p (hperm.mem_iff.1 hp))]
    exact directK_perm hperm
  exact ⟨heq, by rw [heq]⟩

/-- C7 witness. -/
theorem spec_C7_witness :
    clipK [((3 : ℚ), (1 : ℚ)), (2, 1)] = directK [((2 : ℚ), (1 : ℚ)), (3, 1)] ∧
      ([((2 : ℚ), (1 : ℚ)), (3, 1)].map
          fun p => clipK [((3 : ℚ), (1 : ℚ)), (2, 1)] * p.1) =
        ([((2 : ℚ), (1 : ℚ)), (3, 1)].map
          fun p => directK [((2 : ℚ), (1 : ℚ)), (3, 1)] * p.1) :=
  spec_C7 [(2, 1), (3, 1)] [(3, 1), (2, 1)] (by decide) (by decide)

/-- C8: for every vector `x` and non-negative bound vector `xmax` (a scalar
bound is replicated to a vector by the source before the loop),
`abs_dir_clip x xmax` is `k • x` for a single scalar `0 ≤ k ≤ 1`, so it is
a non-negative scalar multiple of `x` whose (squared) norm is at most that
of `x`, and each component respects its bound: `|k * x_i| ≤ xmax_i`. -/
theorem spec_C8 (x xmax : List ℚ) (_hlen : x.length = xmax.length)
    (hpos : ∀ m ∈ xmax, 0 ≤ m) :
    ∃ k : ℚ, 0 ≤ k ∧ k ≤ 1 ∧
      abs_dir_clip x xmax = x.map (fun xi => k * xi) ∧
      (∀ p ∈ x.zip xmax, |k * p.1| ≤ p.2) ∧
      normSq (abs_dir_clip x xmax) ≤ normSq x := by
  have hp : ∀ p ∈ x.zip xmax, 0 ≤ p.2 :=
    fun p hp => hpos p.2 (List.of_mem_zip hp).2
  refine ⟨clipK (x.zip xmax), clipK_nonneg _ hp, clipK_le_one _ hp, rfl, ?_, ?_⟩
  · intro p hmem
    by_cases h1 : p.1 = 0
    · rw [h1, mul_zero, abs_zero]
      exact hp p hmem
    · have habs : 0 < |p.1| := abs_pos.2 h1
      have hk := clipK_le_ratio (x.zip xmax) hp p hmem h1
      have : clipK (x.zip xmax) * |p.1| ≤ p.2 := (le_div_iff₀ habs).1 hk
      calc |clipK (x.zip xmax) * p.1|
          = clipK (x.zip xmax) * |p.1| := by
            rw [abs_mul, abs_of_nonneg (clipK_nonneg _ hp)]
        _ ≤ p.2 := this
  · unfold abs_dir_clip normSq
    rw [List.map_map]
    refine List.sum_le_sum ?_
    intro a _
    have h0 := clipK_nonneg (x.zip xmax) hp
    have h1 := clipK_le_one (x.zip xmax) hp
    have hsq : clipK (x.zip xmax) ^ 2 ≤ 1 := by nlinarith
    have ha : 0 ≤ a ^ 2 := sq_nonneg a
    calc (clipK (x.zip xmax) * a) ^ 2 = clipK (x.zip xmax) ^ 2 * a ^ 2 := by
          ring
      _ ≤ 1 * a ^ 2 := mul_le_mul_of_nonneg_right hsq ha
      _ = a ^ 2 := one_mul _

/-- C8 witness. -/
theorem spec_C8_witness :
    ∃ k : ℚ, 0 ≤ k ∧ k ≤ 1 ∧
      abs_dir_clip [3, 4] [1, 8] = [(3 : ℚ), 4].map (fun xi => k * xi) ∧
      (∀ p ∈ [(3 : ℚ), 4].zip [(1 : ℚ), 8], |k * p.1| ≤ p.2) ∧
      normSq (abs_dir_clip [3, 4] [1, 8]) ≤ normSq [(3 : ℚ), 4] :=
  spec_C8 [3, 4] [1, 8] (by decide) (by decide)

/-- C5: with the default `evasion_vel_coeff = 0.9`, if the time of closest
approach under the current velocities is negative, `evade_missile` returns
`NO_THREAT` with the velocity unchanged — for **every** solver, i.e. without
consulting the solver; otherwise the starting points are tried in exactly
the order `[v0, v0 - dvmax*0.9, v0 + dvmax*0.9]`: if some start qualifies
(`success` and `nit > 0`), the first such start's solution velocity is
adopted and the result is `SUCCESS`; if none qualifies the result is `FAIL`
with the velocity unchanged. -/
theorem spec_C5 (solver : Vec2 → EvasionSolution) (dvmax : ℚ)
    (ax av mx mv : Vec2) :
    (tmindist ax av mx mv < 0 →
      evade_missile solver (9/10) dvmax ax av mx mv =
        (EvadeResult.NO_THREAT, av)) ∧
    (0 ≤ tmindist ax av mx mv → ∀ s : Vec2,
      (evadeStarts (9/10) dvmax av).find? (qualifies solver) = some s →
        evade_missile solver (9/10) dvmax ax av mx mv =
          (EvadeResult.SUCCESS, (solver s).v)) ∧
    (0 ≤ tmindist ax av mx mv →
      (evadeStarts (9/10) dvmax av).find? (qualifies solver) = none →
        evade_missile solver (9/10) dvmax ax av mx mv =
          (EvadeResult.FAIL, av)) := by
  refine ⟨?_, ?_, ?_⟩
  · intro hneg
    rw [evade_missile, if_pos hneg]
  · intro hpos s hfind
    rw [evade_missile, if_neg (not_lt.2 hpos), tryStarts_eq_find?, hfind]
  · intro hpos hfind
    rw [evade_missile, if_neg (not_lt.2 hpos), tryStarts_eq_find?, hfind]

/-- C5 witness: a receding missile yields `NO_THREAT` (velocity kept), and
with a solver that never succeeds the outcome is `FAIL` (velocity kept). -/
theorem spec_C5_witness :
    evade_missile (fun v => ⟨v, 0, false⟩) (9/10) 1 (0, 0) (0, 0) (1, 0) (1, 0) =
        (EvadeResult.NO_THREAT, ((0 : ℚ), (0 : ℚ))) ∧
      evade_missile (fun v => ⟨v, 0, false⟩) (9/10) 1 (0, 0) (0, 0) (1, 0) (0, 0) =
        (EvadeResult.FAIL, ((0 : ℚ), (0 : ℚ))) :=
  ⟨(spec_C5 (fun v => ⟨v, 0, false⟩) 1 (0, 0) (0, 0) (1, 0) (1, 0)).1
      (by norm_num [tmindist, dotQ, Prod.mk_sub_mk]),
   (spec_C5 (fun v => ⟨v, 0, false⟩) 1 (0, 0) (0, 0) (1, 0) (0, 0)).2.2
      (by norm_num [tmindist, dotQ, Prod.mk_sub_mk]) rfl⟩

/-- C6 (counterexample to the claim as stated): on the input
`gun=(0,0), proj_speed=1, target=(1,0), target_v=(1,0)` — where the target
speed equals the projectile speed — `firing_direction` reaches its division
sites with the denominator `d = vt1² + vt2² - proj_speed² = 0`: the division
by zero is **not** guarded. -/
theorem spec_C6_counterexample :
    (0 : ℚ) ∈ firingDirectionDenoms (0, 0) 1 (1, 0) (1, 0) ∧
      ((1 : ℚ)) ^ 2 + ((0 : ℚ)) ^ 2 = 1 ^ 2 := by
  norm_num [firingDirectionDenoms]

/-- C6 (amended): degenerate geometry is handled by early returns with
sentinel values — `tmindist` returns `0` and `sqmindist` returns `|Δx|²`
when the relative velocity is zero, and `firing_direction` returns `None`
for coincident positions — and every division in `tmindist` and `sqmindist`
is guarded.  The divisions of `firing_direction`, however, are guarded only
when the target speed differs from the projectile speed: the divisor `dsq`
is protected by the `dsq == 0` early return, but the divisor
`d = |targ_v|² - proj_speed²` is unguarded (see the counterexample). -/
theorem spec_C6 :
    (∀ x1 v1 x2 v2 : Vec2, (0 : ℚ) ∉ tmindistDenoms x1 v1 x2 v2) ∧
    (∀ x1 v1 x2 v2 : Vec2, (0 : ℚ) ∉ sqmindistDenoms x1 v1 x2 v2) ∧
    (∀ (gun_x : Vec2) (proj_speed : ℚ) (targ_x targ_v : Vec2),
      targ_v.1 ^ 2 + targ_v.2 ^ 2 ≠ proj_speed ^ 2 →
        (0 : ℚ) ∉ firingDirectionDenoms gun_x proj_speed targ_x targ_v) ∧
    (∀ x1 v1 x2 v2 : Vec2, v1 = v2 → tmindist x1 v1 x2 v2 = 0) ∧
    (∀ x1 v1 x2 v2 : Vec2, v1 = v2 →
      sqmindist x1 v1 x2 v2 = dotQ (x1 - x2) (x1 - x2)) ∧
    (∀ (gun_x : ℝ × ℝ) (proj_speed : ℝ) (targ_v : ℝ × ℝ),
      firing_direction gun_x proj_speed gun_x targ_v = none) := by
  refine ⟨?_, ?_, ?_, ?_, ?_, ?_⟩
  · intro x1 v1 x2 v2
    unfold tmindistDenoms
    by_cases h : dotQ (v1 - v2) (v1 - v2) = 0
    · simp [h]
    · simp [h]
      exact fun heq => h heq.symm
  · intro x1 v1 x2 v2
    unfold sqmindistDenoms
    by_cases h : dotQ (v1 - v2) (v1 - v2) = 0
    · simp [h]
    · simp [h]
      exact fun heq => h heq.symm
  · intro gun_x proj_speed targ_x targ_v hden
    unfold firingDirectionDenoms
    by_cases h1 : (targ_x.1 - gun_x.1) ^ 2 + (targ_x.2 - gun_x.2) ^ 2 = 0
    · simp [h1]
    · rw [if_neg h1]
      by_cases h2 : proj_speed ^ 2 *
          ((targ_x.1 - gun_x.1) ^ 2 + (targ_x.2 - gun_x.2) ^ 2) -
          ((targ_x.1 - gun_x.1) * targ_v.2 -
            (targ_x.2 - gun_x.2) * targ_v.1) ^ 2 < 0
      · simp [h2]
      · rw [if_neg h2]
        intro hmem
        have hd : targ_v.1 ^ 2 + targ_v.2 ^ 2 - proj_speed ^ 2 ≠ 0 := by
          intro h
          exact hden (by linarith [h])
        rcases List.mem_cons.1 hmem with h | hmem
        · exact hd h.symm
        · rcases List.mem_cons.1 hmem with h | hmem
          · exact h1 h.symm
          · rcases List.mem_cons.1 hmem with h | hmem
            · exact h1 h.symm
            · rcases List.mem_cons.1 hmem with h | hmem
              · exact hd h.symm
              · rcases List.mem_cons.1 hmem with h | hmem
                · exact h1 h.symm
                · rcases List.mem_cons.1 hmem with h | hmem
                  · exact h1 h.symm
                  · exact absurd hmem (List.not_mem_nil 0)
  · intro x1 v1 x2 v2 h
    subst h
    simp [tmindist, dotQ]
  · intro x1 v1 x2 v2 h
    subst h
    simp [sqmindist, dotQ]
  · intro gun_x proj_speed targ_v
    rw [firing_direction, if_pos]
    unfold fdDsq
    ring

/-- C6 witness. -/
theorem spec_C6_witness :
    ((0 : ℚ) ∉ firingDirectionDenoms (0, 0) 2 (1, 0) (1, 0)) ∧
      tmindist (0, 0) (1, 1) (2, 2) (1, 1) = 0 :=
  ⟨spec_C6.2.2.1 (0, 0) 2 (1, 0) (1, 0) (by norm_num),
   spec_C6.2.2.2.1 (0, 0) (1, 1) (2, 2) (1, 1) rfl⟩

/-- C3: on a tick where a non-destroyed missile is within `explosion_range`
of its target, `UnguidedMissile.next` explodes it (`exploded`, `destroyed`,
zero velocity) and destroys the target (`destroyed`, zero velocity); on a
tick where a non-destroyed, non-exploded missile does not explode but its
updated position `x + v*dt` leaves the world bounds, it ends destroyed with
`exploded` still `false`. -/
theorem spec_C3 (xlb xub : Vec2) (dt : ℚ) (m : MissileS) (tgt : AircraftS) :
    (m.destroyed = false → distLE m.x tgt.x m.explRange →
      ((MissileS.next xlb xub dt m tgt).1.exploded = true ∧
        (MissileS.next xlb xub dt m tgt).1.destroyed = true ∧
        (MissileS.next xlb xub dt m tgt).1.v = 0 ∧
        (MissileS.next xlb xub dt m tgt).2.destroyed = true ∧
        (MissileS.next xlb xub dt m tgt).2.v = 0)) ∧
    (m.destroyed = false → m.exploded = false →
      ¬distLE m.x tgt.x m.explRange → outOfBounds xlb xub (m.x + dt • m.v) →
      ((MissileS.next xlb xub dt m tgt).1.destroyed = true ∧
        (MissileS.next xlb xub dt m tgt).1.exploded = false)) := by
  constructor
  · intro hd hr
    have hhit : ¬m.destroyed = true ∧ distLE m.x tgt.x m.explRange :=
      ⟨by rw [hd]; exact Bool.false_ne_true, hr⟩
    have hnogo : ¬(¬(m.explode).destroyed = true ∧
        outOfBounds xlb xub ((m.explode).x + dt • (m.explode).v)) := by
      rintro ⟨hh, _⟩
      exact hh rfl
    simp only [MissileS.next, if_pos hhit, if_neg hnogo]
    exact ⟨rfl, rfl, rfl, rfl, rfl⟩
  · intro hd hx hr hout
    have hhit : ¬(¬m.destroyed = true ∧ distLE m.x tgt.x m.explRange) := by
      rintro ⟨_, hcontra⟩
      exact hr hcontra
    have hgo : ¬({ m with x := m.x + dt • m.v } : MissileS).destroyed = true ∧
        outOfBounds xlb xub ({ m with x := m.x + dt • m.v } : MissileS).x := by
      exact ⟨by rw [hd]; exact Bool.false_ne_true, hout⟩
    simp only [MissileS.next, if_neg hhit, if_pos hgo]
    exact ⟨rfl, hx⟩

/-- C3 witness: a missile at the origin with explosion range `1` next to its
target explodes and destroys the target; a missile past the upper bound
self-destructs without exploding. -/
theorem spec_C3_witness :
    ((MissileS.next (0, 0) (10, 10) 1 ⟨(1, 1), (1, 0), 1, false, false⟩
        ⟨(1, 1), (0, 0), false⟩).1.exploded = true ∧
      (MissileS.next (0, 0) (10, 10) 1 ⟨(1, 1), (1, 0), 1, false, false⟩
        ⟨(1, 1), (0, 0), false⟩).1.destroyed = true ∧
      (MissileS.next (0, 0) (10, 10) 1 ⟨(1, 1), (1, 0), 1, false, false⟩
        ⟨(1, 1), (0, 0), false⟩).1.v = 0 ∧
      (MissileS.next (0, 0) (10, 10) 1 ⟨(1, 1), (1, 0), 1, false, false⟩
        ⟨(1, 1), (0, 0), false⟩).2.destroyed = true ∧
      (MissileS.next (0, 0) (10, 10) 1 ⟨(1, 1), (1, 0), 1, false, false⟩
        ⟨(1, 1), (0, 0), false⟩).2.v = 0) ∧
    ((MissileS.next (0, 0) (10, 10) 1 ⟨(9, 9), (5, 0), 1, false, false⟩
        ⟨(0, 0), (0, 0), false⟩).1.destroyed = true ∧
      (MissileS.next (0, 0) (10, 10) 1 ⟨(9, 9), (5, 0), 1, false, false⟩
        ⟨(0, 0), (0, 0), false⟩).1.exploded = false) :=
  ⟨(spec_C3 (0, 0) (10, 10) 1 ⟨(1, 1), (1, 0), 1, false, false⟩
      ⟨(1, 1), (0, 0), false⟩).1 rfl
      (by norm_num [distLE, sqDist]),
   (spec_C3 (0, 0) (10, 10) 1 ⟨(9, 9), (5, 0), 1, false, false⟩
      ⟨(0, 0), (0, 0), false⟩).2 rfl rfl
      (by norm_num [distLE, sqDist])
      (by norm_num [outOfBounds, Prod.mk_add_mk, Prod.smul_mk])⟩

/-- C4: in the embedded data model the invariants `destroyed ⇒ v = 0` (for
aircraft and missiles) and `exploded ⇒ destroyed` are established by
`destroy`/`explode`/`self_destruct` and preserved by every per-tick
operation (`Aircraft.next` with an arbitrary controller velocity update,
and `UnguidedMissile.next` for the missile and its target), and the
`destroyed` flag is never reset by any of these operations. -/
theorem spec_C4 :
    (∀ a : AircraftS, (a.destroy).inv ∧ (a.destroy).destroyed = true) ∧
    (∀ (ctrl : AircraftS → Vec2) (vmax dt : ℚ) (a : AircraftS), a.inv →
      ((a.next ctrl vmax dt).inv ∧
        (a.next ctrl vmax dt).destroyed = a.destroyed)) ∧
    (∀ m : MissileS, (m.destroy).inv ∧ (m.explode).inv ∧
      (m.self_destruct).inv ∧ (m.destroy).destroyed = true ∧
      (m.explode).destroyed = true ∧ (m.explode).exploded = true ∧
      (m.self_destruct).destroyed = true) ∧
    (∀ (xlb xub : Vec2) (dt : ℚ) (m : MissileS) (tgt : AircraftS),
      m.inv → tgt.inv →
      ((MissileS.next xlb xub dt m tgt).1.inv ∧
        (MissileS.next xlb xub dt m tgt).2.inv ∧
        (m.destroyed = true → (MissileS.next xlb xub dt m tgt).1.destroyed = true) ∧
        (tgt.destroyed = true → (MissileS.next xlb xub dt m tgt).2.destroyed = true))) := by
  refine ⟨?_, ?_, ?_, ?_⟩
  · intro a
    exact ⟨fun _ => rfl, rfl⟩
  · intro ctrl vmax dt a ha
    refine ⟨?_, rfl⟩
    intro hd
    have hd2 : a.destroyed = true := hd
    show abs_dir_clip2 (if a.destroyed then a.v else ctrl a) vmax = 0
    simp [hd2, ha hd2, abs_dir_clip2_zero]
  · intro m
    exact ⟨⟨fun _ => rfl, fun _ => rfl⟩, ⟨fun _ => rfl, fun _ => rfl⟩,
      ⟨fun _ => rfl, fun _ => rfl⟩, rfl, rfl, rfl, rfl⟩
  · intro xlb xub dt m tgt hm htgt
    by_cases hhit : ¬m.destroyed = true ∧ distLE m.x tgt.x m.explRange
    · have hnogo : ¬(¬(m.explode).destroyed = true ∧
          outOfBounds xlb xub ((m.explode).x + dt • (m.explode).v)) := by
        rintro ⟨hh, _⟩
        exact hh rfl
      simp only [MissileS.next, if_pos hhit, if_neg hnogo]
      refine ⟨⟨fun _ => rfl, fun _ => rfl⟩, fun _ => rfl,
        fun _ => rfl, fun _ => rfl⟩
    · simp only [MissileS.next, if_neg hhit]
      by_cases hgo : ¬({ m with x := m.x + dt • m.v } : MissileS).destroyed = true ∧
          outOfBounds xlb xub ({ m with x := m.x + dt • m.v } : MissileS).x
      · simp only [if_pos hgo]
        exact ⟨⟨fun _ => rfl, fun _ => rfl⟩, htgt, fun _ => rfl, fun hd => hd⟩
      · simp only [if_neg hgo]
        exact ⟨⟨fun hd => hm.1 hd, fun hx => hm.2 hx⟩, htgt,
          fun hd => hd, fun hd => hd⟩

/-- C4 witness. -/
theorem spec_C4_witness :
    ((AircraftS.next (fun a => a.v + (1, 0)) 5 1
        ⟨(0, 0), (1, 0), false⟩).inv ∧
      (AircraftS.next (fun a => a.v + (1, 0)) 5 1
        ⟨(0, 0), (1, 0), false⟩).destroyed = false) ∧
    ((MissileS.next (0, 0) (10, 10) 1 ⟨(1, 1), (0, 0), 1, true, true⟩
        ⟨(5, 5), (0, 0), false⟩).1.inv ∧
      (MissileS.next (0, 0) (10, 10) 1 ⟨(1, 1), (0, 0), 1, true, true⟩
        ⟨(5, 5), (0, 0), false⟩).2.inv) := by
  constructor
  · have h := (spec_C4.2.1 (fun a => a.v + (1, 0)) 5 1
      ⟨(0, 0), (1, 0), false⟩ (fun hd => absurd hd Bool.false_ne_true))
    exact ⟨h.1, h.2⟩
  · have h := (spec_C4.2.2.2 (0, 0) (10, 10) 1 ⟨(1, 1), (0, 0), 1, true, true⟩
      ⟨(5, 5), (0, 0), false⟩
      ⟨fun _ => rfl, fun _ => rfl⟩
      (fun hd => absurd hd Bool.false_ne_true))
    exact ⟨h.1, h.2.1⟩

/-- C2: in every state reachable by any sequence of ticks from a fresh
launcher, at most one of the missiles the launcher has fired is live
(has `destroyed = false`); moreover a tick that fires a new missile
(`flags` grows) does so only after every previously fired missile is
destroyed and the `self.missile` reference was cleared. -/
theorem spec_C2 :
    (∀ s : MSState, MSReachable s →
      ∀ i j : ℕ, ∀ hi : i < s.flags.length, ∀ hj : j < s.flags.length,
        s.flags[i] = false → s.flags[j] = false → i = j) ∧
    (∀ (tc cf : Bool) (s : MSState), MSReachable s →
      (msNext tc cf s).flags.length = s.flags.length + 1 →
      ∀ i : ℕ, i < s.flags.length →
        (msNext tc cf s).flags.getD i false = true) := by
  constructor
  · intro s hreach i j hi hj hfi hfj
    have hinv := msInv_reachable hreach
    have h1 := hinv i hi hfi
    have h2 := hinv j hj hfj
    rw [h1] at h2
    injection h2
  · intro tc cf s hreach hlen i hi
    have hinv := msInv_reachable hreach
    have hinv1 := msInv_msClear tc s hinv
    have hclen : (msClear tc s).flags.length = s.flags.length :=
      msClear_flags_length tc s
    by_cases hc : (msClear tc s).current = none ∧ cf = true
    · have hall := msClear_none_all_destroyed tc s hinv hc.1
      have hi' : i < (msClear tc s).flags.length := by omega
      have hnext : (msNext tc cf s).flags = (msClear tc s).flags ++ [false] := by
        rw [msNext, msFire, if_pos hc]
      rw [hnext, List.getD_eq_getElem?_getD, List.getElem?_append,
        if_pos hi', List.getElem?_eq_getElem hi']
      exact hall i hi'
    · exfalso
      have : (msNext tc cf s).flags.length = s.flags.length := by
        rw [msNext, msFire, if_neg hc, hclen]
      omega

/-- C2 witness: fire a missile, let the environment destroy it, and tick
again: the launcher fires a second missile, and at that point the first is
destroyed. -/
theorem spec_C2_witness :
    (msNext false true (envDestroy 0 (msNext false true msInit))).flags.getD
        0 false = true ∧
      (0 : ℕ) = 0 :=
  ⟨spec_C2.2 false true (envDestroy 0 (msNext false true msInit))
      ((Relation.ReflTransGen.single
          (MSStep.next false true msInit)).tail
        (MSStep.destroy 0 (msNext false true msInit)))
      (by decide) 0 (by decide),
   spec_C2.1 (msNext false true msInit)
      (Relation.ReflTransGen.single (MSStep.next false true msInit))
      0 0 (by decide) (by decide) (by decide) (by decide)⟩

/-- C9: if the per-entity loop of a tick terminates within the allotted
fuel, the sequence of entities visited (each getting its
`erase`/`draw`/`next` calls) is exactly the final registry in registration
order: entities appended to the registry mid-tick (as by
`MissileSystem.fire`) are visited in that same tick, after every entity
registered before them — the loop iterates the live, growable registry, not
a snapshot of it. -/
theorem spec_C9 {E : Type} (spawn : E → List E) (fuel : ℕ)
    (objs vis fin : List E) (h : modelTick spawn fuel objs = some (vis, fin)) :
    vis = fin ∧ ∃ tail, objs ++ tail = fin :=
  modelTickAux_spec spawn fuel objs 0 (Nat.zero_le _) vis fin h

/-- C9 witness: entity `0` spawns entity `2` mid-tick; the tick visits
`[0, 1, 2]` — the spawned entity included, after the pre-registered ones —
while a snapshot iteration would have visited only `[0, 1]`. -/
theorem spec_C9_witness :
    ([0, 1, 2] : List ℕ) = [0, 1, 2] ∧
      ∃ tail, [0, 1] ++ tail = [0, 1, 2] :=
  spec_C9 (fun n => if n = 0 then [2] else []) 4 [0, 1] [0, 1, 2] [0, 1, 2] rfl

/-- C10 (counterexample to the claim as stated): for `tmax = -2`, `dt = 1`
— with pause and exit never signalled — the loop body never runs and
`Model.run` returns `t = 0`, which does not satisfy
`tmax < t ≤ tmax + dt`. -/
theorem spec_C10_counterexample :
    ¬ ∃ (n : ℕ) (t : ℚ), modelRun (-2) 1 n = some t ∧
      (-2 : ℚ) < t ∧ t ≤ -2 + 1 := by
  rintro ⟨n, t, hrun, _, hle⟩
  have ht : t = 0 := by
    cases n with
    | zero =>
        rw [modelRun, modelRunAux, if_neg (by norm_num)] at hrun
        injection hrun with h
        exact h.symm
    | succ m =>
        rw [modelRun, modelRunAux, if_neg (by norm_num)] at hrun
        injection hrun with h
        exact h.symm
  rw [ht] at hle
  norm_num at hle

/-- C10 (amended): for every `dt > 0` and every `tmax > -dt` (in particular
every `tmax ≥ 0`), with pause never enabled and exit never signalled,
`Model.run` terminates after finitely many iterations and returns a final
time `t` with `tmax < t ≤ tmax + dt`. -/
theorem spec_C10 (tmax dt : ℚ) (hdt : 0 < dt) (htmax : -dt < tmax) :
    ∃ (n : ℕ) (t : ℚ), modelRun tmax dt n = some t ∧
      tmax < t ∧ t ≤ tmax + dt := by
  obtain ⟨n, hn⟩ := exists_nat_gt (tmax / dt)
  have hfuel : tmax < 0 + (n : ℚ) * dt := by
    rw [zero_add]
    calc tmax = tmax / dt * dt := by field_simp
      _ < n * dt := mul_lt_mul_of_pos_right hn hdt
  have hle : (0 : ℚ) ≤ tmax + dt := by linarith
  obtain ⟨r, hr, h1, h2⟩ := modelRunAux_spec tmax dt n 0 hle hfuel
  exact ⟨n, r, hr, h1, h2⟩

/-- C10 witness. -/
theorem spec_C10_witness :
    ∃ (n : ℕ) (t : ℚ), modelRun 1 1 n = some t ∧ 1 < t ∧ t ≤ 1 + 1 :=
  spec_C10 1 1 (by norm_num) (by norm_num)

lemma fdSqrtDis_sq (gun_x : ℝ × ℝ) (proj_speed : ℝ) (targ_x targ_v : ℝ × ℝ)
    (hdis : 0 ≤ fdDis gun_x proj_speed targ_x targ_v) :
    fdSqrtDis gun_x proj_speed targ_x targ_v ^ 2 =
      proj_speed ^ 2 *
          ((targ_x.1 - gun_x.1) ^ 2 + (targ_x.2 - gun_x.2) ^ 2) -
        ((targ_x.1 - gun_x.1) * targ_v.2 -
          (targ_x.2 - gun_x.2) * targ_v.1) ^ 2 :=
  Real.sq_sqrt hdis

/-- The first solution has the projectile speed. -/
lemma fdV1_speed (gun_x : ℝ × ℝ) (proj_speed : ℝ) (targ_x targ_v : ℝ × ℝ)
    (hdsq : fdDsq gun_x targ_x ≠ 0)
    (hdis : 0 ≤ fdDis gun_x proj_speed targ_x targ_v) :
    (fdV1 gun_x proj_speed targ_x targ_v).1 ^ 2 +
      (fdV1 gun_x proj_speed targ_x targ_v).2 ^ 2 = proj_speed ^ 2 := by
  have hdsq' : (targ_x.1 - gun_x.1) ^ 2 + (targ_x.2 - gun_x.2) ^ 2 ≠ 0 := hdsq
  have hs : (-(fdSqrtDis gun_x proj_speed targ_x targ_v)) ^ 2 =
      proj_speed ^ 2 * ((targ_x.1 - gun_x.1) ^ 2 + (targ_x.2 - gun_x.2) ^ 2) -
        ((targ_x.1 - gun_x.1) * targ_v.2 -
          (targ_x.2 - gun_x.2) * targ_v.1) ^ 2 := by
    rw [neg_sq]
    exact fdSqrtDis_sq gun_x proj_speed targ_x targ_v hdis
  have h := fd_speed_generic (targ_x.1 - gun_x.1) (targ_x.2 - gun_x.2)
    targ_v.1 targ_v.2 proj_speed
    (-(fdSqrtDis gun_x proj_speed targ_x targ_v)) hdsq' hs
  unfold fdV1 fdA fdB fdDsq
  linear_combination h

/-- The second solution has the projectile speed. -/
lemma fdV2_speed (gun_x : ℝ × ℝ) (proj_speed : ℝ) (targ_x targ_v : ℝ × ℝ)
    (hdsq : fdDsq gun_x targ_x ≠ 0)
    (hdis : 0 ≤ fdDis gun_x proj_speed targ_x targ_v) :
    (fdV2 gun_x proj_speed targ_x targ_v).1 ^ 2 +
      (fdV2 gun_x proj_speed targ_x targ_v).2 ^ 2 = proj_speed ^ 2 := by
  have hdsq' : (targ_x.1 - gun_x.1) ^ 2 + (targ_x.2 - gun_x.2) ^ 2 ≠ 0 := hdsq
  have h := fd_speed_generic (targ_x.1 - gun_x.1) (targ_x.2 - gun_x.2)
    targ_v.1 targ_v.2 proj_speed
    (fdSqrtDis gun_x proj_speed targ_x targ_v) hdsq'
    (fdSqrtDis_sq gun_x proj_speed targ_x targ_v hdis)
  unfold fdV2 fdA fdB fdDsq
  linear_combination h

/-- Meet equation for the first solution. -/
lemma fdSol1_meet (gun_x : ℝ × ℝ) (proj_speed : ℝ) (targ_x targ_v : ℝ × ℝ)
    (hdsq : fdDsq gun_x targ_x ≠ 0) (hden : fdDen proj_speed targ_v ≠ 0)
    (hdis : 0 ≤ fdDis gun_x proj_speed targ_x targ_v) :
    gun_x.1 + (fdV1 gun_x proj_speed targ_x targ_v).1 *
        fdT1 gun_x proj_speed targ_x targ_v =
      targ_x.1 + targ_v.1 * fdT1 gun_x proj_speed targ_x targ_v ∧
    gun_x.2 + (fdV1 gun_x proj_speed targ_x targ_v).2 *
        fdT1 gun_x proj_speed targ_x targ_v =
      targ_x.2 + targ_v.2 * fdT1 gun_x proj_speed targ_x targ_v := by
  have hdsq' : (targ_x.1 - gun_x.1) ^ 2 + (targ_x.2 - gun_x.2) ^ 2 ≠ 0 := hdsq
  have hden' : targ_v.1 ^ 2 + targ_v.2 ^ 2 - proj_speed ^ 2 ≠ 0 := hden
  have hs : (-(fdSqrtDis gun_x proj_speed targ_x targ_v)) ^ 2 =
      proj_speed ^ 2 * ((targ_x.1 - gun_x.1) ^ 2 + (targ_x.2 - gun_x.2) ^ 2) -
        ((targ_x.1 - gun_x.1) * targ_v.2 -
          (targ_x.2 - gun_x.2) * targ_v.1) ^ 2 := by
    rw [neg_sq]
    exact fdSqrtDis_sq gun_x proj_speed targ_x targ_v hdis
  constructor
  · have h := fd_meet_x_generic (targ_x.1 - gun_x.1) (targ_x.2 - gun_x.2)
      targ_v.1 targ_v.2 proj_speed
      (-(fdSqrtDis gun_x proj_speed targ_x targ_v)) hdsq' hden' hs
    unfold fdV1 fdT1 fdA fdC fdDen fdDsq
    linear_combination h
  · have h := fd_meet_y_generic (targ_x.1 - gun_x.1) (targ_x.2 - gun_x.2)
      targ_v.1 targ_v.2 proj_speed
      (-(fdSqrtDis gun_x proj_speed targ_x targ_v)) hdsq' hden' hs
    unfold fdV1 fdT1 fdB fdC fdDen fdDsq
    linear_combination h

/-- Meet equation for the second solution. -/
lemma fdSol2_meet (gun_x : ℝ × ℝ) (proj_speed : ℝ) (targ_x targ_v : ℝ × ℝ)
    (hdsq : fdDsq gun_x targ_x ≠ 0) (hden : fdDen proj_speed targ_v ≠ 0)
    (hdis : 0 ≤ fdDis gun_x proj_speed targ_x targ_v) :
    gun_x.1 + (fdV2 gun_x proj_speed targ_x targ_v).1 *
        fdT2 gun_x proj_speed targ_x targ_v =
      targ_x.1 + targ_v.1 * fdT2 gun_x proj_speed targ_x targ_v ∧
    gun_x.2 + (fdV2 gun_x proj_speed targ_x targ_v).2 *
        fdT2 gun_x proj_speed targ_x targ_v =
      targ_x.2 + targ_v.2 * fdT2 gun_x proj_speed targ_x targ_v := by
  have hdsq' : (targ_x.1 - gun_x.1) ^ 2 + (targ_x.2 - gun_x.2) ^ 2 ≠ 0 := hdsq
  have hden' : targ_v.1 ^ 2 + targ_v.2 ^ 2 - proj_speed ^ 2 ≠ 0 := hden
  have hs := fdSqrtDis_sq gun_x proj_speed targ_x targ_v hdis
  constructor
  · have h := fd_meet_x_generic (targ_x.1 - gun_x.1) (targ_x.2 - gun_x.2)
      targ_v.1 targ_v.2 proj_speed
      (fdSqrtDis gun_x proj_speed targ_x targ_v) hdsq' hden' hs
    unfold fdV2 fdT2 fdA fdC fdDen fdDsq
    linear_combination h
  · have h := fd_meet_y_generic (targ_x.1 - gun_x.1) (targ_x.2 - gun_x.2)
      targ_v.1 targ_v.2 proj_speed
      (fdSqrtDis gun_x proj_speed targ_x targ_v) hdsq' hden' hs
    unfold fdV2 fdT2 fdB fdC fdDen fdDsq
    linear_combination h

/-- C1: whenever `firing_direction` returns `some (t, v)`, `t` is strictly
positive and is the smallest strictly-positive one of the two candidate
roots `solt1`, `solt2`, the speed of `v` equals the projectile speed
(`|v|² = proj_speed²`), and the meet equation
`gun_x + v*t = targ_x + targ_v*t` holds exactly (the idealised form of
"within numerical tolerance"); in particular on
`gun=(0,0), speed=10, target=(10,0), target_v=(0,0)` it returns
`t = 1, v = (10, 0)`. -/
theorem spec_C1 :
    (∀ (gun_x : ℝ × ℝ) (proj_speed : ℝ) (targ_x targ_v : ℝ × ℝ) (t : ℝ)
        (v : ℝ × ℝ),
      firing_direction gun_x proj_speed targ_x targ_v = some (t, v) →
        0 < t ∧
        (t = fdT1 gun_x proj_speed targ_x targ_v ∨
          t = fdT2 gun_x proj_speed targ_x targ_v) ∧
        (0 < fdT1 gun_x proj_speed targ_x targ_v →
          t ≤ fdT1 gun_x proj_speed targ_x targ_v) ∧
        (0 < fdT2 gun_x proj_speed targ_x targ_v →
          t ≤ fdT2 gun_x proj_speed targ_x targ_v) ∧
        v.1 ^ 2 + v.2 ^ 2 = proj_speed ^ 2 ∧
        gun_x.1 + v.1 * t = targ_x.1 + targ_v.1 * t ∧
        gun_x.2 + v.2 * t = targ_x.2 + targ_v.2 * t) ∧
    firing_direction (0, 0) 10 (10, 0) (0, 0) = some (1, (10, 0)) := by
  constructor
  · intro gun_x proj_speed targ_x targ_v t v h
    rw [firing_direction] at h
    by_cases h1 : fdDsq gun_x targ_x = 0
    · rw [if_pos h1] at h
      exact Option.noConfusion h
    rw [if_neg h1] at h
    by_cases h2 : fdDis gun_x proj_speed targ_x targ_v < 0
    · rw [if_pos h2] at h
      exact Option.noConfusion h
    rw [if_neg h2] at h
    have hdis : 0 ≤ fdDis gun_x proj_speed targ_x targ_v := not_lt.1 h2
    have hden_of_pos : (0 < fdT1 gun_x proj_speed targ_x targ_v ∨
        0 < fdT2 gun_x proj_speed targ_x targ_v) →
        fdDen proj_speed targ_v ≠ 0 := by
      intro hpos hden0
      obtain ⟨z1, z2⟩ :=
        fdT_eq_zero_of_den_eq_zero gun_x proj_speed targ_x targ_v hden0
      rcases hpos with hp | hp
      · rw [z1] at hp
        exact lt_irrefl 0 hp
      · rw [z2] at hp
        exact lt_irrefl 0 hp
    by_cases h3 : 0 < fdT1 gun_x proj_speed targ_x targ_v
    · rw [if_pos h3] at h
      have hden := hden_of_pos (Or.inl h3)
      by_cases h4 : 0 < fdT2 gun_x proj_speed targ_x targ_v
      · rw [if_pos h4] at h
        by_cases h5 : fdT1 gun_x proj_speed targ_x targ_v ≤
            fdT2 gun_x proj_speed targ_x targ_v
        · rw [if_pos h5] at h
          injection h with h'
          injection h' with ht hv
          subst ht
          subst hv
          exact ⟨h3, Or.inl rfl, fun _ => le_refl _, fun _ => h5,
            fdV1_speed gun_x proj_speed targ_x targ_v h1 hdis,
            (fdSol1_meet gun_x proj_speed targ_x targ_v h1 hden hdis).1,
            (fdSol1_meet gun_x proj_speed targ_x targ_v h1 hden hdis).2⟩
        · rw [if_neg h5] at h
          injection h with h'
          injection h' with ht hv
          subst ht
          subst hv
          exact ⟨h4, Or.inr rfl, fun _ => le_of_not_le h5, fun _ => le_refl _,
            fdV2_speed gun_x proj_speed targ_x targ_v h1 hdis,
            (fdSol2_meet gun_x proj_speed targ_x targ_v h1 hden hdis).1,
            (fdSol2_meet gun_x proj_speed targ_x targ_v h1 hden hdis).2⟩
      · rw [if_neg h4] at h
        injection h with h'
        injection h' with ht hv
        subst ht
        subst hv
        exact ⟨h3, Or.inl rfl, fun _ => le_refl _, fun hp => absurd hp h4,
          fdV1_speed gun_x proj_speed targ_x targ_v h1 hdis,
          (fdSol1_meet gun_x proj_speed targ_x targ_v h1 hden hdis).1,
          (fdSol1_meet gun_x proj_speed targ_x targ_v h1 hden hdis).2⟩
    · rw [if_neg h3] at h
      by_cases h4 : 0 < fdT2 gun_x proj_speed targ_x targ_v
      · rw [if_pos h4] at h
        have hden := hden_of_pos (Or.inr h4)
        injection h with h'
        injection h' with ht hv
        subst ht
        subst hv
        exact ⟨h4, Or.inr rfl, fun hp => absurd hp h3, fun _ => le_refl _,
          fdV2_speed gun_x proj_speed targ_x targ_v h1 hdis,
          (fdSol2_meet gun_x proj_speed targ_x targ_v h1 hden hdis).1,
          (fdSol2_meet gun_x proj_speed targ_x targ_v h1 hden hdis).2⟩
      · rw [if_neg h4] at h
        exact Option.noConfusion h
  · have hdis : fdDis ((0 : ℝ), (0 : ℝ)) 10 (10, 0) (0, 0) = 10000 := by
      norm_num [fdDis, fdDsq]
    have hsq : fdSqrtDis ((0 : ℝ), (0 : ℝ)) 10 (10, 0) (0, 0) = 100 := by
      rw [fdSqrtDis, hdis, show (10000 : ℝ) = 100 ^ 2 by norm_num,
        Real.sqrt_sq (by norm_num)]
    have hT1 : fdT1 ((0 : ℝ), (0 : ℝ)) 10 (10, 0) (0, 0) = -1 := by
      rw [fdT1, hsq]
      norm_num [fdC, fdDen]
    have hT2 : fdT2 ((0 : ℝ), (0 : ℝ)) 10 (10, 0) (0, 0) = 1 := by
      rw [fdT2, hsq]
      norm_num [fdC, fdDen]
    have hV2 : fdV2 ((0 : ℝ), (0 : ℝ)) 10 (10, 0) (0, 0) = (10, 0) := by
      rw [fdV2, hsq]
      norm_num [fdA, fdB, fdDsq, Prod.ext_iff]
    rw [firing_direction, if_neg (by norm_num [fdDsq]),
      if_neg (by rw [hdis]; norm_num), if_neg (by rw [hT1]; norm_num),
      if_pos (by rw [hT2]; norm_num), hT2, hV2]

/-- C1 witness: the returned concrete solution `t = 1, v = (10, 0)` indeed
satisfies the general guarantees. -/
theorem spec_C1_witness :
    (0 : ℝ) < 1 ∧
      ((10 : ℝ), (0 : ℝ)).1 ^ 2 + ((10 : ℝ), (0 : ℝ)).2 ^ 2 = 10 ^ 2 ∧
      ((0 : ℝ), (0 : ℝ)).1 + ((10 : ℝ), (0 : ℝ)).1 * 1 =
        ((10 : ℝ), (0 : ℝ)).1 + ((0 : ℝ), (0 : ℝ)).1 * 1 := by
  obtain ⟨h0, _, _, _, hspeed, hx, _⟩ :=
    spec_C1.1 (0, 0) 10 (10, 0) (0, 0) 1 (10, 0) spec_C1.2
  exact ⟨h0, hspeed, hx⟩

end Evader
